import Mathlib

/-!
# Verification of the fxhash-api data-access core

Shallow embedding of the repository's filter compiler (`src/Utils/Filters.ts`),
simple batch loaders (`src/DataLoaders/Articles.ts`, `src/DataLoaders/GenTokens.ts`),
the market-stats recompute pass (`batchGenTokMarketStats`) and the
filtered/sorted/paginated objkt relationship loader (`batchGenTokObjkt`),
with theorems settling the specification's claims about them.

JavaScript conventions are embedded explicitly: nullable values become
`Option`, object key enumeration becomes an association list in insertion
order, machine timestamps and prices become `Int` (the code runs
`parseInt` on prices before using them).
-/

namespace FxhashApi

/-! ## Filter compiler (`src/Utils/Filters.ts`) -/

/-- The TypeORM comparison operators produced by `mapFilterOperatorTypeorm`. -/
inductive FilterOp where
  | equal
  | notOp
  | moreThan
  | moreThanOrEqual
  | lessThan
  | lessThanOrEqual
  | inOp
deriving DecidableEq, Repr

/-- `mapFilterOperatorTypeorm` (Filters.ts lines 5-16): maps the operator
suffix string to a TypeORM operator; any unknown string — and the
`undefined` obtained when a filter key has no suffix, embedded as `none` —
falls into the `default` branch and maps to `Equal`. -/
def mapFilterOperatorTypeorm (operator : Option String) : FilterOp :=
  match operator with
  | some "eq" => .equal
  | some "ne" => .notOp
  | some "gt" => .moreThan
  | some "gte" => .moreThanOrEqual
  | some "lt" => .lessThan
  | some "lte" => .lessThanOrEqual
  | some "in" => .inOp
  | _ => .equal

/-- Filter values are opaque to the compiler; an abstract value type keeps
the embedding parametric in what the caller passes. We fix a concrete
value type for executability. -/
structure FilterValue where
  raw : String
deriving DecidableEq, Repr

/-- A compiled predicate: the TypeORM operator applied to the value, as
stored under a field name. -/
structure CompiledOp where
  op : FilterOp
  value : FilterValue
deriving DecidableEq, Repr

/-- JavaScript `String.prototype.split` with a one-character separator:
split the character list at every occurrence of the separator, keeping
empty chunks (`"a__b".split("_")` is `["a", "", "b"]`, `"".split("_")` is
`[""]`). -/
def splitOnChar (sep : Char) : List Char → List (List Char)
  | [] => [[]]
  | c :: rest =>
    let r := splitOnChar sep rest
    if c == sep then [] :: r
    else
      match r with
      | [] => [[c]]
      | h :: t => (c :: h) :: t

/-- `filterKey.split("_")` destructured as `[field, operator]`: the field is
the part before the first underscore, the operator the part between the
first and second underscore (`none` embeds the `undefined` obtained when
there is no underscore). -/
def splitFilterKey (key : String) : String × Option String :=
  let parts := (splitOnChar '_' key.toList).map String.mk
  (parts.headD "", parts[1]?)

/-- JavaScript object assignment `obj[k] = v` on an object embedded as an
association list in key-insertion order: replace in place when the key is
present, append otherwise. -/
def recordSet (m : List (String × CompiledOp)) (k : String) (v : CompiledOp) :
    List (String × CompiledOp) :=
  if m.any (fun p => p.1 == k) then
    m.map (fun p => if p.1 == k then (k, v) else p)
  else
    m ++ [(k, v)]

/-- `processFilters` (Filters.ts lines 18-29): for each entry of the filter
object (in enumeration order), split the key into field and operator and
store the compiled operator in a single record keyed by field name. -/
def processFilters (filters : Option (List (String × FilterValue))) :
    List (String × CompiledOp) :=
  match filters with
  | none => []
  | some fs =>
    fs.foldl
      (fun acc kv =>
        let fo := splitFilterKey kv.1
        recordSet acc fo.1 ⟨mapFilterOperatorTypeorm fo.2, kv.2⟩)
      []

/-- A predicate entry produced by `processSelectiveFilters`: a one-key
object `{ [field]: op(value) }`. -/
structure SelectivePred where
  field : String
  op : FilterOp
  value : FilterValue
deriving DecidableEq, Repr

/-- The predicate built from one filter-object entry. -/
def selectivePredOf (kv : String × FilterValue) : SelectivePred :=
  let fo := splitFilterKey kv.1
  ⟨fo.1, mapFilterOperatorTypeorm fo.2, kv.2⟩

/-- `processSelectiveFilters` (Filters.ts lines 36-52): for each entry of
the filter object, keep it as a separate predicate when its field is in
the allow-list, drop it otherwise. -/
def processSelectiveFilters (filters : Option (List (String × FilterValue)))
    (allowed : List String) : List SelectivePred :=
  match filters with
  | none => []
  | some fs =>
    fs.foldl
      (fun acc kv =>
        let fo := splitFilterKey kv.1
        if allowed.contains fo.1 then acc ++ [selectivePredOf kv] else acc)
      []

/-! ## Simple batch loaders (`Articles.ts`, `GenTokens.ts`) -/

/-- The fields of `Article` the loader touches. -/
structure Article where
  id : Nat
deriving DecidableEq, Repr

/-- The fields of `GenerativeToken` the loader touches. -/
structure GenerativeToken where
  id : Nat
deriving DecidableEq, Repr

/-- `batchArticles` (Articles.ts lines 13-21): fetch the articles whose id
is in the requested list, then map each requested id to the first
fetched article with that id (`undefined`, i.e. `none`, when absent). -/
def batchArticles (store : List Article) (userIds : List Nat) :
    List (Option Article) :=
  let users := store.filter (fun a => userIds.contains a.id)
  userIds.map (fun id => users.find? (fun u => u.id == id))

/-- `batchGenTokens` (GenTokens.ts lines 11-19): same shape as
`batchArticles` over the `GenerativeToken` table. -/
def batchGenTokens (store : List GenerativeToken) (ids : List Nat) :
    List (Option GenerativeToken) :=
  let tokens := store.filter (fun t => ids.contains t.id)
  ids.map (fun id => tokens.find? (fun t => t.id == id))

/-! ## Market stats recompute (`batchGenTokMarketStats`) -/

/-- The fields of a `MarketStats` row touched by the recompute pass.
Prices and timestamps are `Int` (milliseconds / mutez after `parseInt`);
nullable columns are `Option`. `median` is assigned directly from the SQL
`PERCENTILE_CONT` result, which can be fractional, hence `Option Rat`. -/
structure MarketStatsRec where
  tokenId : Nat
  floor : Option Int
  median : Option Rat
  totalListing : Int
  highestSold : Option Int
  lowestSold : Option Int
  primTotal : Int
  secVolumeTz : Int
  secVolumeNb : Int
  secVolumeTz24 : Int
  secVolumeNb24 : Int
  updatedAt : Int
  requiresUpdate : Bool
deriving DecidableEq, Repr

/-- Modelled from the spec: the `MarketStats` entity class is not under
`src/` (only its callers are), so the default field values of
`new MarketStats()` follow the spec's "Missing rows are synthesized as
zero-valued records": nullable columns `null`, numeric columns `0`.
The assignments the source then performs on the fresh object
(part_001 lines 167-169: `nStat.id = nStat.tokenId = id` and
`nStat.requiresUpdate = true`) are applied on top. -/
def newMarketStats (id : Nat) : MarketStatsRec where
  tokenId := id
  floor := none
  median := none
  totalListing := 0
  highestSold := none
  lowestSold := none
  primTotal := 0
  secVolumeTz := 0
  secVolumeNb := 0
  secVolumeTz24 := 0
  secVolumeNb24 := 0
  updatedAt := 0
  requiresUpdate := true

/-- `MarketStats.find({ where: { token: In(genIds) } })` (part_001 lines
134-138): the rows of the table whose token id is among the requested
ids. -/
def findStatsRows (store : List MarketStatsRec) (genIds : List Nat) :
    List MarketStatsRec :=
  store.filter (fun s => genIds.contains s.tokenId)

/-- The staleness test of part_001 line 174: recompute when the dirty flag
is set or the record is older than one hour (3600000 ms). -/
def shouldRecompute (now : Int) (s : MarketStatsRec) : Bool :=
  s.requiresUpdate || decide (now - s.updatedAt > 3600000)

/-- The partition loop of part_001 lines 163-180: walk the requested ids in
order; an id with no row gets a synthesized record pushed to `recompute`,
an id whose (first matching) row meets a recompute criterion pushes that
row to `recompute`, any other id pushes its row to `computed`.
Returns `(computed, recompute)` in push order. -/
def partitionStats (genIds : List Nat) (stats : List MarketStatsRec)
    (now : Int) : List MarketStatsRec × List MarketStatsRec :=
  match genIds with
  | [] => ([], [])
  | id :: rest =>
    let pr := partitionStats rest stats now
    match stats.find? (fun s => s.tokenId == id) with
    | none => (pr.1, newMarketStats id :: pr.2)
    | some s =>
      if shouldRecompute now s then (pr.1, s :: pr.2) else (s :: pr.1, pr.2)

/-- An `Objkt` row as seen by the offers aggregate query: its issuer
(generative token) id and the price of its offer when one exists. -/
structure ObjktOffer where
  issuerId : Nat
  offerPrice : Option Int
deriving DecidableEq, Repr

/-- One row of the offers aggregate query result (part_001 lines 192-204):
per token id, `MIN(offer.price)`, `PERCENTILE_CONT(0.5)` of the offer
prices and `COUNT(offer)`. -/
structure ComputeStat where
  id : Nat
  floor : Int
  median : Rat
  totalListing : Int
deriving DecidableEq, Repr

/-- Insertion of one element into a list sorted by `le` (used to embed SQL
ordering deterministically). -/
def insertSorted (le : Int → Int → Bool) (x : Int) : List Int → List Int
  | [] => [x]
  | y :: ys => if le x y then x :: y :: ys else y :: insertSorted le x ys

/-- Ascending sort by insertion. -/
def sortAsc (l : List Int) : List Int :=
  l.foldr (insertSorted (fun a b => a ≤ b)) []

/-- `PERCENTILE_CONT(0.5) WITHIN GROUP (ORDER BY price)`: the continuous
median of a list of prices — the middle element for odd length, the mean
of the two middle elements for even length, `none` for the empty list. -/
def percentileCont05 (prices : List Int) : Option Rat :=
  let s := sortAsc prices
  let n := s.length
  if n = 0 then none
  else if n % 2 = 1 then some ((s.getD (n / 2) 0 : Int) : Rat)
  else some (((s.getD (n / 2 - 1) 0 + s.getD (n / 2) 0 : Int) : Rat) / 2)

/-- The offer prices attached to objkts of one token: rows of the
`objkt LEFT JOIN offer` result with `offer is not null` and the given
issuer. -/
def offerPrices (objkts : List ObjktOffer) (tokId : Nat) : List Int :=
  (objkts.filter (fun o => o.issuerId == tokId)).filterMap (fun o => o.offerPrice)

/-- The offers aggregate query (part_001 lines 192-204): group the
offer-bearing objkt rows with issuer in `ids` by token id; a group (and
hence a result row) exists only for tokens with at least one offer. The
row order of a SQL `GROUP BY` is unspecified; the caller only ever
searches the result by id, so one deterministic order is fixed here. -/
def computeStatsQuery (objkts : List ObjktOffer) (ids : List Nat) :
    List ComputeStat :=
  ids.eraseDups.filterMap (fun id =>
    match offerPrices objkts id with
    | [] => none
    | p :: rest =>
      some ⟨id, rest.foldl min p,
        (percentileCont05 (p :: rest)).getD 0, (p :: rest).length⟩)

/-- Action types relevant to the stats recompute: `OFFER_ACCEPTED`
(a settled secondary sale) and `MINTED_FROM` (a primary mint sale). -/
inductive ActionType where
  | offerAccepted
  | mintedFrom
  | other
deriving DecidableEq, Repr

/-- An `Action` row as used by the recompute pass: token id, type, the
`metadata.price` after the `parseInt` of part_001 line 215, and the
creation timestamp in milliseconds. -/
structure ActionRec where
  tokenId : Nat
  type : ActionType
  price : Int
  createdAt : Int
deriving DecidableEq, Repr

/-- The actions query of part_001 lines 207-212: actions whose type is
`OFFER_ACCEPTED` or `MINTED_FROM` and whose token id is in `genIds` —
the full requested id list, not the recompute list. -/
def actionsQuery (acts : List ActionRec) (genIds : List Nat) :
    List ActionRec :=
  acts.filter (fun a =>
    (a.type == .offerAccepted || a.type == .mintedFrom)
      && genIds.contains a.tokenId)

/-- The sentinel used by the source's `lowestSold` reduce
(part_001 line 244). -/
def lowestSentinel : Int := 9999999999999

/-- The body of the recompute loop (part_001 lines 229-259) for one record:
overwrite `floor`/`median`/`totalListing` only when the aggregate query
produced a row for the token; derive the sale statistics from the fetched
actions filtered to the token; clear the dirty flag. `stat.highestSold`
gets `reduce(max, 0) || null`: a zero (falsy) maximum becomes `null`.
`stat.lowestSold` gets `reduce(min, sentinel)` with the sentinel mapped
back to `null`. -/
def recomputeStat (computeStats : List ComputeStat) (acts : List ActionRec)
    (lastDay : Int) (stat : MarketStatsRec) : MarketStatsRec :=
  let stat :=
    match computeStats.find? (fun s => s.id == stat.tokenId) with
    | some cs =>
      { stat with
        floor := some cs.floor
        median := some cs.median
        totalListing := cs.totalListing }
    | none => stat
  let filtActions := acts.filter (fun a => a.tokenId == stat.tokenId)
  let filtActionsPr := filtActions.filter (fun a => a.type == .mintedFrom)
  let filtActionsSc := filtActions.filter (fun a => a.type == .offerAccepted)
  let highestRaw :=
    filtActionsSc.foldl (fun acc a => if a.price > acc then a.price else acc) 0
  let lowestRaw :=
    filtActionsSc.foldl (fun acc a => if a.price < acc then a.price else acc)
      lowestSentinel
  let filtActionsSc24 := filtActionsSc.filter (fun a => a.createdAt > lastDay)
  { stat with
    highestSold := if highestRaw == 0 then none else some highestRaw
    lowestSold := if lowestRaw == lowestSentinel then none else some lowestRaw
    primTotal := filtActionsPr.foldl (fun acc a => acc + a.price) 0
    secVolumeTz := filtActionsSc.foldl (fun acc a => acc + a.price) 0
    secVolumeNb := filtActionsSc.length
    secVolumeTz24 := filtActionsSc24.foldl (fun acc a => acc + a.price) 0
    secVolumeNb24 := filtActionsSc24.length
    requiresUpdate := false }

/-- `batchGenTokMarketStats` (part_001 lines 130-268). The store is passed
explicitly: the `MarketStats` table, the offer-bearing objkt rows and the
`Action` table. `now` is the clock read of line 161 and `nowLoop` the one
of line 224 (`lastDay`). Returns, per requested id, the first computed
record with that token id (`none` embeds JavaScript `undefined`). -/
def batchGenTokMarketStats (genIds : List Nat)
    (statsStore : List MarketStatsRec) (objkts : List ObjktOffer)
    (acts : List ActionRec) (now nowLoop : Int) :
    List (Option MarketStatsRec) :=
  let stats := findStatsRows statsStore genIds
  let pr := partitionStats genIds stats now
  let computed :=
    if pr.2.length > 0 then
      let recomputeIDs := pr.2.map (fun s => s.tokenId)
      let computeStats := computeStatsQuery objkts recomputeIDs
      let fetchedActions := actionsQuery acts genIds
      let lastDay := nowLoop - 24 * 3600 * 1000
      pr.1 ++ pr.2.map (recomputeStat computeStats fetchedActions lastDay)
    else pr.1
  genIds.map (fun id => computed.find? (fun s => s.tokenId == id))

/-! ## Objkt relationship loader (`batchGenTokObjkt`, GenTokens.ts) -/

/-- A trait: one `{name, value}` entry of an objkt's `features` JSON
array. -/
structure Trait where
  name : String
  value : String
deriving DecidableEq, Repr

/-- The offer joined to an objkt: its price and creation time. -/
structure OfferInfo where
  price : Int
  createdAt : Int
deriving DecidableEq, Repr

/-- The fields of an `Objkt` row touched by the loader: primary key,
issuer (generative token) id, the nullable joined offer and the nullable
`features` JSON array. -/
structure ObjktRow where
  id : Nat
  issuerId : Nat
  offer : Option OfferInfo
  features : Option (List Trait)
deriving DecidableEq, Repr

/-- One feature filter of the GraphQL input: a trait name and the selected
values for it. -/
structure FeatureFilterInput where
  name : String
  values : List String
deriving DecidableEq, Repr

/-- Modelled from the spec: `processGentkFeatureFilters` is imported by
GenTokens.ts from `../Utils/Filters` but is not under `src/`. Per the
spec's grouped mode ("for each trait name, all selected values are
combined with OR; different trait names are combined with AND"), it turns
each input filter into one group holding a `{name, value}` fragment per
selected value; the caller then ORs inside a group and ANDs across
groups. -/
def processGentkFeatureFilters (ffs : List FeatureFilterInput) :
    List (List Trait) :=
  ffs.map (fun f => f.values.map (fun v => ⟨f.name, v⟩))

/-- The jsonb containment `objkt.features::jsonb @> filter` for a one-trait
fragment: the features array exists and contains the `{name, value}`
entry (`null` features match nothing). -/
def featuresContain (row : ObjktRow) (t : Trait) : Bool :=
  match row.features with
  | none => false
  | some fs => fs.contains t

/-- The WHERE clauses built by GenTokens.ts lines 56-64: one bracket per
group ANDed onto the query, each bracket ORing the containment checks of
its group's fragments. -/
def matchesFeatureFilters (groups : List (List Trait)) (row : ObjktRow) :
    Bool :=
  groups.all (fun g => g.any (featuresContain row))

/-- The filter object of the objkt loader. The only filter the source
reads is `filters.offer_ne === null` (GenTokens.ts line 68);
`offerNeNull = true` embeds the presence of `offer_ne: null`. -/
structure ObjktFilters where
  offerNeNull : Bool
deriving DecidableEq, Repr

/-- The sortable columns the source addresses: `offerPrice` and
`offerCreatedAt` are special-cased onto the joined offer, `id` is the
default column (GenTokens.ts lines 37-39, 73-85). -/
inductive ObjktSortField where
  | id
  | offerPrice
  | offerCreatedAt
deriving DecidableEq, Repr

/-- Sort direction. -/
inductive SortDir where
  | asc
  | desc
deriving DecidableEq, Repr

/-- The (nullable) sort key of a row for one sort field. -/
def sortKeyOf (f : ObjktSortField) (row : ObjktRow) : Option Int :=
  match f with
  | .id => some (row.id : Int)
  | .offerPrice => row.offer.map (fun o => o.price)
  | .offerCreatedAt => row.offer.map (fun o => o.createdAt)

/-- SQL comparison of two nullable keys under a direction with
`NULLS LAST` (every `addOrderBy` of the loader passes `NULLS LAST`). -/
def cmpKey (dir : SortDir) (a b : Option Int) : Ordering :=
  match a, b with
  | none, none => .eq
  | none, some _ => .gt
  | some _, none => .lt
  | some x, some y =>
    match dir with
    | .asc => compare x y
    | .desc => compare y x

/-- Lexicographic comparison over the ordered sort-argument list. -/
def cmpRows (sorts : List (ObjktSortField × SortDir)) (a b : ObjktRow) :
    Ordering :=
  match sorts with
  | [] => .eq
  | (f, dir) :: rest =>
    match cmpKey dir (sortKeyOf f a) (sortKeyOf f b) with
    | .eq => cmpRows rest a b
    | o => o

/-- Insertion into a row list sorted by the comparator (ties keep the
existing element first; SQL leaves tie order unspecified, one
deterministic choice is fixed here). -/
def insertRowSorted (sorts : List (ObjktSortField × SortDir)) (x : ObjktRow) :
    List ObjktRow → List ObjktRow
  | [] => [x]
  | y :: ys =>
    if cmpRows sorts x y == .lt then x :: y :: ys
    else y :: insertRowSorted sorts x ys

/-- `ORDER BY` over the sort-argument list. -/
def sortRows (sorts : List (ObjktSortField × SortDir)) (rows : List ObjktRow) :
    List ObjktRow :=
  rows.foldr (insertRowSorted sorts) []

/-- One composite key of the objkt loader: the token id plus the
filter/sort/pagination shape of the request
(GenTokens.ts lines 27-34). -/
structure ObjktKey where
  id : Nat
  filters : Option ObjktFilters
  featureFilters : Option (List FeatureFilterInput)
  sort : Option (List (ObjktSortField × SortDir))
  takeN : Option Nat
  skipN : Option Nat
deriving DecidableEq, Repr

/-- The single store query built by `batchGenTokObjkt`
(GenTokens.ts lines 41-95) for a given id list and the shape taken from
one key: restrict to the issuers, apply the grouped feature filters,
inner-join the offer when `offer_ne: null` was passed, sort (defaulting
to `id DESC` when no sort argument is given), then apply `skip` and
`take`. -/
def runObjktQuery (store : List ObjktRow) (ids : List Nat) (k0 : ObjktKey) :
    List ObjktRow :=
  let sorts0 := k0.sort.getD []
  let sorts := if sorts0.isEmpty then [(ObjktSortField.id, SortDir.desc)] else sorts0
  let base := store.filter (fun o => ids.contains o.issuerId)
  let base :=
    match k0.featureFilters with
    | some ffs =>
      if ffs.length > 0 then
        base.filter (matchesFeatureFilters (processGentkFeatureFilters ffs))
      else base
    | none => base
  let base :=
    match k0.filters with
    | some f => if f.offerNeNull then base.filter (fun o => o.offer.isSome) else base
    | none => base
  let sorted := sortRows sorts base
  let afterSkip :=
    match k0.skipN with
    | some s => sorted.drop s
    | none => sorted
  match k0.takeN with
  | some t => afterSkip.take t
  | none => afterSkip

/-- `batchGenTokObjkt` (GenTokens.ts lines 26-98): the ids are taken from
every key, but the filters, feature filters, sort and pagination are all
read from the FIRST key of the batch (`genIds[0]`). The query result is
then split per requested id by issuer. A DataLoader never dispatches an
empty batch; on `[]` the source would throw reading `genIds[0]`, embedded
as the empty result. -/
def batchGenTokObjkt (keys : List ObjktKey) (store : List ObjktRow) :
    List (List ObjktRow) :=
  match keys with
  | [] => []
  | k0 :: _ =>
    let ids := keys.map (fun k => k.id)
    let objkts := runObjktQuery store ids k0
    ids.map (fun id => objkts.filter (fun o => o.issuerId == id))

/-! ## Shared helper lemmas -/

/-- The compiled operator built from one filter-object entry (the value
`processFilters` stores under the entry's field). -/
def compiledOpOf (kv : String × FilterValue) : CompiledOp :=
  ⟨mapFilterOperatorTypeorm (splitFilterKey kv.1).2, kv.2⟩

/-- The field of one filter-object entry. -/
def fieldOf (kv : String × FilterValue) : String :=
  (splitFilterKey kv.1).1

lemma processSelectiveFilters_foldl (fs : List (String × FilterValue))
    (allowed : List String) (acc : List SelectivePred) :
    fs.foldl
      (fun acc kv =>
        let fo := splitFilterKey kv.1
        if allowed.contains fo.1 then acc ++ [selectivePredOf kv] else acc)
      acc
    = acc ++ (fs.filter (fun kv => allowed.contains (fieldOf kv))).map selectivePredOf := by
  induction fs generalizing acc with
  | nil => simp
  | cons hd tl ih =>
    by_cases hc : allowed.contains (splitFilterKey hd.1).1 = true
    · rw [List.foldl_cons]
      dsimp only
      rw [if_pos hc, ih, List.filter_cons,
        if_pos (show allowed.contains (fieldOf hd) = true from hc)]
      simp
    · rw [List.foldl_cons]
      dsimp only
      rw [if_neg hc, ih, List.filter_cons,
        if_neg (show ¬allowed.contains (fieldOf hd) = true from hc)]

lemma processSelectiveFilters_eq (fs : List (String × FilterValue))
    (allowed : List String) :
    processSelectiveFilters (some fs) allowed
      = (fs.filter (fun kv => allowed.contains (fieldOf kv))).map selectivePredOf := by
  simpa [processSelectiveFilters] using processSelectiveFilters_foldl fs allowed []

lemma beq_symm_false {a b : String} (h : (a == b) = false) : (b == a) = false := by
  simp only [beq_eq_false_iff_ne, ne_eq] at h ⊢
  exact fun he => h he.symm

lemma lookup_cons (a k : String) (b : CompiledOp) (es : List (String × CompiledOp)) :
    List.lookup a ((k, b) :: es) = if a == k then some b else List.lookup a es := by
  cases h : a == k <;> simp [List.lookup, h]

lemma lookup_eq_none_of_not_any (m : List (String × CompiledOp)) (k : String)
    (h : m.any (fun p => p.1 == k) = false) : m.lookup k = none := by
  induction m with
  | nil => rfl
  | cons hd tl ih =>
    obtain ⟨k1, v1⟩ := hd
    simp only [List.any_cons, Bool.or_eq_false_iff] at h
    rw [lookup_cons, if_neg (by simp [beq_symm_false h.1])]
    exact ih h.2

lemma lookup_map_set_of_any (m : List (String × CompiledOp)) (k : String)
    (v : CompiledOp) (h : m.any (fun p => p.1 == k) = true) :
    (m.map (fun p => if p.1 == k then (k, v) else p)).lookup k = some v := by
  induction m with
  | nil => simp at h
  | cons hd tl ih =>
    obtain ⟨k1, v1⟩ := hd
    simp only [List.map_cons]
    by_cases hh : (k1 == k) = true
    · rw [if_pos hh, lookup_cons, if_pos (by simp)]
    · rw [if_neg hh]
      simp only [Bool.not_eq_true] at hh
      simp only [List.any_cons, hh, Bool.false_or] at h
      rw [lookup_cons, if_neg (by simp [beq_symm_false hh])]
      exact ih h

lemma recordSet_lookup_self (m : List (String × CompiledOp)) (k : String)
    (v : CompiledOp) : (recordSet m k v).lookup k = some v := by
  unfold recordSet
  by_cases h : m.any (fun p => p.1 == k) = true
  · rw [if_pos h]
    exact lookup_map_set_of_any m k v h
  · rw [if_neg h, List.lookup_append]
    simp only [Bool.not_eq_true] at h
    rw [lookup_eq_none_of_not_any m k h, Option.none_or, lookup_cons,
      if_pos (by simp)]

lemma lookup_map_set_ne (m : List (String × CompiledOp)) (k f : String)
    (v : CompiledOp) (hkf : (k == f) = false) :
    (m.map (fun p => if p.1 == k then (k, v) else p)).lookup f = m.lookup f := by
  induction m with
  | nil => rfl
  | cons hd tl ih =>
    obtain ⟨k1, v1⟩ := hd
    simp only [List.map_cons]
    by_cases hh : (k1 == k) = true
    · have hd1k : k1 = k := by simpa [beq_iff_eq] using hh
      rw [if_pos hh, lookup_cons, if_neg (by simp [beq_symm_false hkf]),
        lookup_cons, if_neg (by simp [hd1k, beq_symm_false hkf])]
      exact ih
    · rw [if_neg hh, lookup_cons, lookup_cons]
      by_cases hfh : (f == k1) = true
      · rw [if_pos hfh, if_pos hfh]
      · rw [if_neg hfh, if_neg hfh]
        exact ih

lemma recordSet_lookup_ne (m : List (String × CompiledOp)) (k f : String)
    (v : CompiledOp) (hkf : (k == f) = false) :
    (recordSet m k v).lookup f = m.lookup f := by
  unfold recordSet
  by_cases h : m.any (fun p => p.1 == k) = true
  · rw [if_pos h]
    exact lookup_map_set_ne m k f v hkf
  · rw [if_neg h, List.lookup_append, lookup_cons,
      if_neg (by simp [beq_symm_false hkf])]
    cases hm : m.lookup f <;> simp [Option.or]

lemma processFilters_foldl_lookup (fs : List (String × FilterValue))
    (acc : List (String × CompiledOp)) (f : String) :
    (fs.foldl
        (fun acc kv =>
          let fo := splitFilterKey kv.1
          recordSet acc fo.1 ⟨mapFilterOperatorTypeorm fo.2, kv.2⟩)
        acc).lookup f =
      match fs.reverse.find? (fun kv => fieldOf kv == f) with
      | some kv => some (compiledOpOf kv)
      | none => acc.lookup f := by
  induction fs generalizing acc with
  | nil => simp
  | cons hd tl ih =>
    rw [List.foldl_cons]
    dsimp only
    rw [ih, List.reverse_cons, List.find?_append]
    cases htl : tl.reverse.find? (fun kv => fieldOf kv == f) with
    | some kv => simp [Option.or]
    | none =>
      simp only [Option.none_or]
      by_cases hp : (fieldOf hd == f) = true
      · have hf : (splitFilterKey hd.1).1 = f := by
          simpa [fieldOf, beq_iff_eq] using hp
        rw [List.find?_cons, hp]  -- might need adjusting
        rw [hf]
        exact recordSet_lookup_self acc f _
      · simp only [Bool.not_eq_true] at hp
        rw [List.find?_cons, hp]
        exact recordSet_lookup_ne acc _ f _ (by simpa [fieldOf] using hp)

lemma processFilters_lookup (fs : List (String × FilterValue)) (f : String) :
    (processFilters (some fs)).lookup f =
      (fs.reverse.find? (fun kv => fieldOf kv == f)).map compiledOpOf := by
  have h := processFilters_foldl_lookup fs [] f
  simp only [processFilters] at h ⊢
  rw [h]
  cases fs.reverse.find? (fun kv => fieldOf kv == f) <;> simp

/-- Generic positional lemma for the `ids.map(id => rows.find(...))` batch
pattern: the entry at position `i` is present exactly when the store holds
an entity with the requested id. -/
lemma batch_map_find_getD {α : Type} (idOf : α → Nat) (store : List α)
    (ids : List Nat) (i : Nat) (hi : i < ids.length) :
    (((ids.map (fun id =>
        (store.filter (fun a => ids.contains (idOf a))).find?
          (fun a => idOf a == id))).getD i none).isSome = true
      ↔ ∃ a ∈ store, idOf a = ids.getD i 0) := by
  have hmap : i < (ids.map (fun id =>
      (store.filter (fun a => ids.contains (idOf a))).find?
        (fun a => idOf a == id))).length := by
    simpa using hi
  rw [List.getD_eq_getElem _ _ hmap, List.getElem_map,
    List.getD_eq_getElem _ _ hi, List.find?_isSome]
  constructor
  · rintro ⟨a, ha, hpa⟩
    rw [List.mem_filter] at ha
    exact ⟨a, ha.1, by simpa [beq_iff_eq] using hpa⟩
  · rintro ⟨a, ha, hid⟩
    refine ⟨a, ?_, by simpa [beq_iff_eq] using hid⟩
    rw [List.mem_filter]
    exact ⟨ha, List.elem_iff.mpr (hid ▸ List.getElem_mem hi)⟩

/-! ## Theorems for the claims -/

/-- C6: for every batch function (`batchArticles`, `batchGenTokens`) and
every input key list of size K, the returned array has exactly K entries
positionally aligned to the input keys; a key whose entity does not exist
yields an explicit absent value (`none`, i.e. `undefined`) at its
position — the array is never shortened and no error is raised. -/
theorem batch_functions_positional (astore : List Article) (aids : List Nat)
    (tstore : List GenerativeToken) (tids : List Nat) :
    (batchArticles astore aids).length = aids.length
    ∧ (batchGenTokens tstore tids).length = tids.length
    ∧ (∀ i, i < aids.length →
        (((batchArticles astore aids).getD i none).isSome = true
          ↔ ∃ a ∈ astore, a.id = aids.getD i 0))
    ∧ (∀ i, i < tids.length →
        (((batchGenTokens tstore tids).getD i none).isSome = true
          ↔ ∃ t ∈ tstore, t.id = tids.getD i 0)) := by
  refine ⟨by simp [batchArticles], by simp [batchGenTokens], ?_, ?_⟩
  · intro i hi
    exact batch_map_find_getD Article.id astore aids i hi
  · intro i hi
    exact batch_map_find_getD GenerativeToken.id tstore tids i hi

/-- Witness for C6 at a concrete input: a store holding articles 1 and 3,
requested ids `[3, 2]` — position 0 is present, position 1 absent. -/
theorem batch_functions_positional_witness :
    (0 : Nat) < 2
    ∧ (((batchArticles [⟨1⟩, ⟨3⟩] [3, 2]).getD 0 none).isSome = true
        ↔ ∃ a ∈ [(⟨1⟩ : Article), ⟨3⟩], a.id = [3, 2].getD 0 0) :=
  ⟨by decide,
    (batch_functions_positional [⟨1⟩, ⟨3⟩] [3, 2] [] []).2.2.1 0 (by decide)⟩

/-- C8: `processSelectiveFilters` emits one predicate per filter key whose
field (the part before the underscore) is in the allow-list, compiled
with `mapFilterOperatorTypeorm` on the operator suffix; keys whose field
is not allowed are dropped without any error (the compile is total), and
any unknown operator suffix maps to `Equal`. The seven known suffixes map
to their comparisons. -/
theorem selective_filters_allowlist_and_default :
    (∀ (fs : List (String × FilterValue)) (allowed : List String),
      processSelectiveFilters (some fs) allowed
        = (fs.filter (fun kv => allowed.contains (fieldOf kv))).map selectivePredOf)
    ∧ (∀ s : String,
        s ∉ (["eq", "ne", "gt", "gte", "lt", "lte", "in"] : List String) →
        mapFilterOperatorTypeorm (some s) = .equal)
    ∧ (∀ kv : String × FilterValue,
        selectivePredOf kv
          = ⟨(splitFilterKey kv.1).1,
              mapFilterOperatorTypeorm (splitFilterKey kv.1).2, kv.2⟩)
    ∧ mapFilterOperatorTypeorm (some "eq") = .equal
    ∧ mapFilterOperatorTypeorm (some "ne") = .notOp
    ∧ mapFilterOperatorTypeorm (some "gt") = .moreThan
    ∧ mapFilterOperatorTypeorm (some "gte") = .moreThanOrEqual
    ∧ mapFilterOperatorTypeorm (some "lt") = .lessThan
    ∧ mapFilterOperatorTypeorm (some "lte") = .lessThanOrEqual
    ∧ mapFilterOperatorTypeorm (some "in") = .inOp := by
  refine ⟨processSelectiveFilters_eq, ?_, fun kv => rfl,
    rfl, rfl, rfl, rfl, rfl, rfl, rfl⟩
  intro s h
  unfold mapFilterOperatorTypeorm
  split <;> simp_all

/-- Witness for C8: the unknown operator suffix `"zzz"` compiles to
`Equal`. -/
theorem selective_filters_allowlist_and_default_witness :
    ("zzz" : String) ∉ (["eq", "ne", "gt", "gte", "lt", "lte", "in"] : List String)
    ∧ mapFilterOperatorTypeorm (some "zzz") = .equal :=
  ⟨by decide, selective_filters_allowlist_and_default.2.1 "zzz" (by decide)⟩

/-- C9: in `processFilters` the compiled predicates live in a single object
keyed by field name, so the value recorded under a field is the one from
the LAST filter key with that field in enumeration order (first conjunct:
the lookup equals the last matching entry); in particular a two-key
object whose keys share a field compiles to a single entry holding the
second key's operator (second conjunct). `processSelectiveFilters`
instead emits one predicate per (allowed) entry, keeping both (third
conjunct). -/
theorem processFilters_last_key_wins :
    (∀ (fs : List (String × FilterValue)) (f : String),
      (processFilters (some fs)).lookup f
        = (fs.reverse.find? (fun kv => fieldOf kv == f)).map compiledOpOf)
    ∧ (∀ (k1 k2 : String) (v1 v2 : FilterValue),
        fieldOf (k1, v1) = fieldOf (k2, v2) →
        processFilters (some [(k1, v1), (k2, v2)])
          = [(fieldOf (k1, v1), compiledOpOf (k2, v2))])
    ∧ (∀ (fs : List (String × FilterValue)) (allowed : List String),
        (processSelectiveFilters (some fs) allowed).length
          = (fs.filter (fun kv => allowed.contains (fieldOf kv))).length) := by
  refine ⟨processFilters_lookup, ?_, ?_⟩
  · intro k1 k2 v1 v2 h
    simp only [fieldOf] at h
    simp [processFilters, recordSet, fieldOf, compiledOpOf, h]
  · intro fs allowed
    rw [processSelectiveFilters_eq, List.length_map]

/-- Witness for C9 at the claim's own example: `price_gte` then `price_lte`
compile to the single predicate `price ↦ LessThanOrEqual` (the last key),
while the selective variant keeps both. -/
theorem processFilters_last_key_wins_witness :
    fieldOf ("price_gte", (⟨"5"⟩ : FilterValue)) = fieldOf ("price_lte", ⟨"9"⟩)
    ∧ processFilters (some [("price_gte", ⟨"5"⟩), ("price_lte", ⟨"9"⟩)])
        = [(fieldOf ("price_gte", (⟨"5"⟩ : FilterValue)),
            compiledOpOf ("price_lte", ⟨"9"⟩))] :=
  ⟨by decide,
    processFilters_last_key_wins.2.1 "price_gte" "price_lte" ⟨"5"⟩ ⟨"9"⟩
      (by decide)⟩

/-- C7: the grouped trait-filter compilation (spec-modelled
`processGentkFeatureFilters` plus the OR-brackets-inside-AND loop of
GenTokens.ts) matches an edition exactly when, for each selected trait
name, the edition carries that trait with one of the selected values:
values of one trait are ORed, distinct trait names are ANDed. -/
theorem compileGrouped_or_within_and_across (sels : List FeatureFilterInput)
    (row : ObjktRow) :
    matchesFeatureFilters (processGentkFeatureFilters sels) row = true
      ↔ ∀ sel ∈ sels, ∃ v ∈ sel.values,
          (⟨sel.name, v⟩ : Trait) ∈ row.features.getD [] := by
  cases hf : row.features <;>
    simp [matchesFeatureFilters, processGentkFeatureFilters, featuresContain,
      hf, List.all_eq_true, List.any_eq_true]

/-- The `highestSold` reduce of part_001 line 243 stays at its initial `0`
when every filtered sale has price 0. -/
lemma foldl_max_price_zero (l : List ActionRec) (h : ∀ a ∈ l, a.price = 0) :
    l.foldl (fun acc a => if a.price > acc then a.price else acc) 0 = 0 := by
  induction l with
  | nil => rfl
  | cons hd tl ih =>
    rw [List.foldl_cons]
    have hp := h hd (by simp)
    simp only [hp, gt_iff_lt, lt_self_iff_false, if_false]
    exact ih (fun a ha => h a (List.mem_cons_of_mem hd ha))

/-- The `lowestSold` reduce of part_001 line 244 stays at `0` once the
accumulator reaches `0`, when every filtered sale has price 0. -/
lemma foldl_min_price_zero (l : List ActionRec) (h : ∀ a ∈ l, a.price = 0) :
    l.foldl (fun acc a => if a.price < acc then a.price else acc) 0 = 0 := by
  induction l with
  | nil => rfl
  | cons hd tl ih =>
    rw [List.foldl_cons]
    have hp := h hd (by simp)
    simp only [hp, lt_self_iff_false, if_false]
    exact ih (fun a ha => h a (List.mem_cons_of_mem hd ha))

/-- Unfolding of the two sale-derived nullable fields of `recomputeStat`,
with the `|| null` falsy-zero coercion and the sentinel check explicit. -/
lemma recomputeStat_sold_fields (cs : List ComputeStat) (acts : List ActionRec)
    (lastDay : Int) (stat : MarketStatsRec) :
    ((recomputeStat cs acts lastDay stat).highestSold
        = (if ((acts.filter (fun a => a.tokenId == stat.tokenId)).filter
              (fun a => a.type == ActionType.offerAccepted)).foldl
              (fun acc a => if a.price > acc then a.price else acc) 0 == 0
           then none
           else some (((acts.filter (fun a => a.tokenId == stat.tokenId)).filter
              (fun a => a.type == ActionType.offerAccepted)).foldl
              (fun acc a => if a.price > acc then a.price else acc) 0)))
    ∧ ((recomputeStat cs acts lastDay stat).lowestSold
        = (if ((acts.filter (fun a => a.tokenId == stat.tokenId)).filter
              (fun a => a.type == ActionType.offerAccepted)).foldl
              (fun acc a => if a.price < acc then a.price else acc) lowestSentinel
              == lowestSentinel
           then none
           else some (((acts.filter (fun a => a.tokenId == stat.tokenId)).filter
              (fun a => a.type == ActionType.offerAccepted)).foldl
              (fun acc a => if a.price < acc then a.price else acc) lowestSentinel))) := by
  unfold recomputeStat
  cases hcs : cs.find? (fun s => s.id == stat.tokenId) <;> simp

/-- C10: when a recomputed token's settled sales all have price 0 (and at
least one exists), `highestSold` comes out `null` — the zero maximum is
falsy, so `|| null` coerces it — while `lowestSold` comes out `0`: the
minimum leaves the sentinel, so the null-coercion does not fire. -/
theorem recompute_zero_priced_sales (cs : List ComputeStat)
    (acts : List ActionRec) (lastDay : Int) (stat : MarketStatsRec)
    (hex : ∃ a ∈ acts, a.tokenId = stat.tokenId ∧ a.type = ActionType.offerAccepted)
    (hzero : ∀ a ∈ acts, a.tokenId = stat.tokenId →
      a.type = ActionType.offerAccepted → a.price = 0) :
    (recomputeStat cs acts lastDay stat).highestSold = none
    ∧ (recomputeStat cs acts lastDay stat).lowestSold = some 0 := by
  obtain ⟨hhi, hlo⟩ := recomputeStat_sold_fields cs acts lastDay stat
  set sc := (acts.filter (fun a => a.tokenId == stat.tokenId)).filter
    (fun a => a.type == ActionType.offerAccepted) with hsc
  have hallz : ∀ a ∈ sc, a.price = 0 := by
    intro a ha
    rw [hsc, List.mem_filter, List.mem_filter] at ha
    exact hzero a ha.1.1 (by simpa [beq_iff_eq] using ha.1.2)
      (by simpa [beq_iff_eq] using ha.2)
  have hne : sc ≠ [] := by
    obtain ⟨a, ha, hat, haty⟩ := hex
    have : a ∈ sc := by
      rw [hsc, List.mem_filter, List.mem_filter]
      exact ⟨⟨ha, by simp [hat]⟩, by simp [haty]⟩
    exact List.ne_nil_of_mem this
  constructor
  · rw [hhi, foldl_max_price_zero sc hallz]
    simp
  · rw [hlo]
    obtain ⟨b, rest, hb⟩ := List.exists_cons_of_ne_nil hne
    have hbz : b.price = 0 := hallz b (by simp [hb])
    have hrest : ∀ a ∈ rest, a.price = 0 := by
      intro a ha
      exact hallz a (by simp [hb, ha])
    rw [hb, List.foldl_cons]
    have hstep : (if b.price < lowestSentinel then b.price else lowestSentinel) = 0 := by
      rw [hbz]
      simp [lowestSentinel]
    rw [hstep, foldl_min_price_zero rest hrest]
    simp [lowestSentinel]

/-- Witness for C10: one settled sale at price 0 yields
`highestSold = null`, `lowestSold = 0`. -/
theorem recompute_zero_priced_sales_witness :
    (∃ a ∈ [(⟨1, ActionType.offerAccepted, 0, 0⟩ : ActionRec)],
        a.tokenId = (newMarketStats 1).tokenId ∧ a.type = ActionType.offerAccepted)
    ∧ (recomputeStat [] [⟨1, ActionType.offerAccepted, 0, 0⟩] 0
        (newMarketStats 1)).highestSold = none
    ∧ (recomputeStat [] [⟨1, ActionType.offerAccepted, 0, 0⟩] 0
        (newMarketStats 1)).lowestSold = some 0 :=
  ⟨by decide,
    recompute_zero_priced_sales [] [⟨1, ActionType.offerAccepted, 0, 0⟩] 0
      (newMarketStats 1) (by decide) (by decide)⟩

/-- Recomputing never changes which token a record belongs to. -/
lemma recomputeStat_tokenId (cs : List ComputeStat) (acts : List ActionRec)
    (lastDay : Int) (stat : MarketStatsRec) :
    (recomputeStat cs acts lastDay stat).tokenId = stat.tokenId := by
  unfold recomputeStat
  cases hcs : cs.find? (fun s => s.id == stat.tokenId) <;> simp

/-- The main function in closed form: whether or not the recompute branch
runs, the searched list is the fresh records followed by the recomputed
ones (the else-branch has an empty recompute list, so the append is
vacuous there). -/
lemma batchGenTokMarketStats_eq (genIds : List Nat)
    (statsStore : List MarketStatsRec) (objkts : List ObjktOffer)
    (acts : List ActionRec) (now nowLoop : Int) :
    batchGenTokMarketStats genIds statsStore objkts acts now nowLoop =
      genIds.map (fun id =>
        ((partitionStats genIds (findStatsRows statsStore genIds) now).1
          ++ (partitionStats genIds (findStatsRows statsStore genIds) now).2.map
              (recomputeStat
                (computeStatsQuery objkts
                  ((partitionStats genIds (findStatsRows statsStore genIds) now).2.map
                    (fun s => s.tokenId)))
                (actionsQuery acts genIds)
                (nowLoop - 24 * 3600 * 1000))).find? (fun s => s.tokenId == id)) := by
  unfold batchGenTokMarketStats
  by_cases h :
      (partitionStats genIds (findStatsRows statsStore genIds) now).2.length > 0
  · simp [h]
  · have h0 : (partitionStats genIds (findStatsRows statsStore genIds) now).2 = [] :=
      List.length_eq_zero.mp (Nat.eq_zero_of_not_pos h)
    simp [h, h0]

/-- Every requested id ends up, with its token id, in one of the two
partitions (fresh or recompute). -/
lemma partitionStats_covers (genIds : List Nat) (stats : List MarketStatsRec)
    (now : Int) :
    ∀ id ∈ genIds,
      (∃ s ∈ (partitionStats genIds stats now).1, s.tokenId = id)
      ∨ (∃ s ∈ (partitionStats genIds stats now).2, s.tokenId = id) := by
  induction genIds with
  | nil => simp
  | cons hd tl ih =>
    intro id hid
    rw [List.mem_cons] at hid
    cases hfind : stats.find? (fun s => s.tokenId == hd) with
    | none =>
      simp only [partitionStats, hfind]
      rcases hid with rfl | hid
      · right
        exact ⟨newMarketStats id, by simp, rfl⟩
      · rcases ih id hid with ⟨s, hs, hst⟩ | ⟨s, hs, hst⟩
        · exact Or.inl ⟨s, hs, hst⟩
        · exact Or.inr ⟨s, by simp [hs], hst⟩
    | some s0 =>
      have hs0 : s0.tokenId = hd := by
        simpa [beq_iff_eq] using List.find?_some hfind
      by_cases hrec : shouldRecompute now s0 = true
      · simp only [partitionStats, hfind, hrec, if_true]
        rcases hid with rfl | hid
        · exact Or.inr ⟨s0, by simp, hs0⟩
        · rcases ih id hid with ⟨s, hs, hst⟩ | ⟨s, hs, hst⟩
          · exact Or.inl ⟨s, hs, hst⟩
          · exact Or.inr ⟨s, by simp [hs], hst⟩
      · simp only [partitionStats, hfind, hrec, if_false]
        rcases hid with rfl | hid
        · exact Or.inl ⟨s0, by simp, hs0⟩
        · rcases ih id hid with ⟨s, hs, hst⟩ | ⟨s, hs, hst⟩
          · exact Or.inl ⟨s, by simp [hs], hst⟩
          · exact Or.inr ⟨s, hs, hst⟩

/-- C1: `getStats` returns one entry per input id, positionally aligned —
position `i` always holds a present record whose token id is the `i`-th
requested id, whatever mixture of fresh, stale and missing rows the
request hits. -/
theorem getStats_one_entry_per_id (genIds : List Nat)
    (statsStore : List MarketStatsRec) (objkts : List ObjktOffer)
    (acts : List ActionRec) (now nowLoop : Int) :
    (batchGenTokMarketStats genIds statsStore objkts acts now nowLoop).length
        = genIds.length
    ∧ ∀ i, i < genIds.length →
        ∃ s,
          (batchGenTokMarketStats genIds statsStore objkts acts now nowLoop).getD
              i none = some s
          ∧ s.tokenId = genIds.getD i 0 := by
  rw [batchGenTokMarketStats_eq]
  refine ⟨by simp, ?_⟩
  intro i hi
  rw [List.getD_eq_getElem _ _ (by simpa using hi), List.getElem_map,
    List.getD_eq_getElem _ _ hi]
  have hcov := partitionStats_covers genIds (findStatsRows statsStore genIds)
    now genIds[i] (List.getElem_mem hi)
  have hexists : ∃ x ∈
      (partitionStats genIds (findStatsRows statsStore genIds) now).1
        ++ (partitionStats genIds (findStatsRows statsStore genIds) now).2.map
            (recomputeStat
              (computeStatsQuery objkts
                ((partitionStats genIds (findStatsRows statsStore genIds) now).2.map
                  (fun s => s.tokenId)))
              (actionsQuery acts genIds)
              (nowLoop - 24 * 3600 * 1000)),
      (x.tokenId == genIds[i]) = true := by
    rcases hcov with ⟨s, hs, hst⟩ | ⟨s, hs, hst⟩
    · exact ⟨s, List.mem_append_left _ hs, by simp [hst]⟩
    · refine ⟨recomputeStat _ _ _ s,
        List.mem_append_right _ (List.mem_map_of_mem _ hs), ?_⟩
      simp [recomputeStat_tokenId, hst]
  obtain ⟨s, hfind⟩ :=
    Option.isSome_iff_exists.mp (List.find?_isSome.mpr hexists)
  exact ⟨s, hfind, by simpa [beq_iff_eq] using List.find?_some hfind⟩

/-- Witness for C1 at a concrete input: a single requested id with an
empty store still yields one present, aligned entry. -/
theorem getStats_one_entry_per_id_witness :
    (0 : Nat) < [(5 : Nat)].length
    ∧ ∃ s,
        (batchGenTokMarketStats [5] [] [] [] 0 0).getD 0 none = some s
        ∧ s.tokenId = [(5 : Nat)].getD 0 0 :=
  ⟨by decide, (getStats_one_entry_per_id [5] [] [] [] 0 0).2 0 (by decide)⟩

/-- When the (first) row found for an id is fresh, that id reaches no
recompute-partition entry, and the fresh partition's first record for it
is exactly that row. -/
lemma partitionStats_fresh (genIds : List Nat) (stats : List MarketStatsRec)
    (now : Int) (id : Nat) (s : MarketStatsRec)
    (hfind : stats.find? (fun t => t.tokenId == id) = some s)
    (hfresh : shouldRecompute now s = false) :
    (∀ x ∈ (partitionStats genIds stats now).2, x.tokenId ≠ id)
    ∧ (id ∈ genIds →
        (partitionStats genIds stats now).1.find? (fun t => t.tokenId == id)
          = some s) := by
  induction genIds with
  | nil => simp [partitionStats]
  | cons hd tl ih =>
    by_cases hhd : hd = id
    · subst hhd
      simp only [partitionStats, hfind, hfresh, Bool.false_eq_true, if_false]
      refine ⟨ih.1, fun _ => ?_⟩
      rw [List.find?_cons, List.find?_some hfind]
    · cases hf2 : stats.find? (fun t => t.tokenId == hd) with
      | none =>
        simp only [partitionStats, hf2]
        refine ⟨?_, ?_⟩
        · intro x hx
          rcases List.mem_cons.mp hx with rfl | hx
          · simpa [newMarketStats] using hhd
          · exact ih.1 x hx
        · intro hmem
          rcases List.mem_cons.mp hmem with rfl | hmem
          · exact absurd rfl hhd
          · exact ih.2 hmem
      | some s0 =>
        have hs0 : s0.tokenId = hd := by
          simpa [beq_iff_eq] using List.find?_some hf2
        by_cases hrec : shouldRecompute now s0 = true
        · simp only [partitionStats, hf2, hrec, if_true]
          refine ⟨?_, ?_⟩
          · intro x hx
            rcases List.mem_cons.mp hx with rfl | hx
            · rw [hs0]; exact hhd
            · exact ih.1 x hx
          · intro hmem
            rcases List.mem_cons.mp hmem with rfl | hmem
            · exact absurd rfl hhd
            · exact ih.2 hmem
        · simp only [partitionStats, hf2, hrec, Bool.false_eq_true, if_false]
          refine ⟨ih.1, ?_⟩
          intro hmem
          rcases List.mem_cons.mp hmem with rfl | hmem
          · exact absurd rfl hhd
          · have hps0 : (s0.tokenId == id) = false := by
              simp [hs0, hhd]
            rw [List.find?_cons, hps0]
            exact ih.2 hmem

/-- C5: a requested token whose row exists with `requiresUpdate = false`
and `now - updatedAt` within the one-hour window is partitioned as fresh:
its id is never in the id list fed to the offers aggregate query, and its
record is returned unmodified at its position. -/
theorem getStats_fresh_skips_recompute (genIds : List Nat)
    (statsStore : List MarketStatsRec) (objkts : List ObjktOffer)
    (acts : List ActionRec) (now nowLoop : Int) (id : Nat)
    (s : MarketStatsRec) (i : Nat)
    (hfind : (findStatsRows statsStore genIds).find? (fun t => t.tokenId == id)
      = some s)
    (hflag : s.requiresUpdate = false)
    (hage : now - s.updatedAt ≤ 3600000)
    (hi : i < genIds.length)
    (hid : genIds.getD i 0 = id) :
    id ∉ (partitionStats genIds (findStatsRows statsStore genIds) now).2.map
        (fun t => t.tokenId)
    ∧ (batchGenTokMarketStats genIds statsStore objkts acts now nowLoop).getD
        i none = some s := by
  have hfresh : shouldRecompute now s = false := by
    simp only [shouldRecompute, hflag, Bool.false_or, decide_eq_false_iff_not,
      not_lt]
    exact hage
  obtain ⟨hnot2, hfind1⟩ :=
    partitionStats_fresh genIds (findStatsRows statsStore genIds) now id s
      hfind hfresh
  have hgi : genIds[i] = id := by
    rw [← hid, List.getD_eq_getElem _ _ hi]
  constructor
  · simp only [List.mem_map, not_exists]
    rintro x ⟨hx, hxid⟩
    exact hnot2 x hx hxid
  · rw [batchGenTokMarketStats_eq,
      List.getD_eq_getElem _ _ (by simpa using hi), List.getElem_map, hgi,
      List.find?_append, hfind1 (hgi ▸ List.getElem_mem hi)]
    rfl

/-- Witness for C5: one fresh row (clean flag, 50 ms old) is skipped by the
recompute partition and returned as-is. -/
theorem getStats_fresh_skips_recompute_witness :
    ((findStatsRows
        [⟨1, some 7, none, 1, none, none, 0, 0, 0, 0, 0, 0, false⟩] [1]).find?
      (fun t => t.tokenId == 1)
        = some ⟨1, some 7, none, 1, none, none, 0, 0, 0, 0, 0, 0, false⟩)
    ∧ ((1 : Nat) ∉ (partitionStats [1]
          (findStatsRows
            [⟨1, some 7, none, 1, none, none, 0, 0, 0, 0, 0, 0, false⟩] [1])
          50).2.map (fun t => t.tokenId)
        ∧ (batchGenTokMarketStats [1]
            [⟨1, some 7, none, 1, none, none, 0, 0, 0, 0, 0, 0, false⟩]
            [] [] 50 0).getD 0 none
          = some ⟨1, some 7, none, 1, none, none, 0, 0, 0, 0, 0, 0, false⟩) :=
  ⟨by decide,
    getStats_fresh_skips_recompute [1]
      [⟨1, some 7, none, 1, none, none, 0, 0, 0, 0, 0, 0, false⟩] [] [] 50 0 1
      ⟨1, some 7, none, 1, none, none, 0, 0, 0, 0, 0, 0, false⟩ 0
      (by decide) (by decide) (by decide) (by decide) (by decide)⟩

/-- A fresh row for token 1 (clean flag, age 100 ms at `now = 100`). -/
def c3FreshRow : MarketStatsRec :=
  ⟨1, none, none, 0, none, none, 0, 0, 0, 0, 0, 0, false⟩

/-- A settled-sale action on the fresh token 1. -/
def c3Action : ActionRec := ⟨1, .offerAccepted, 6, 0⟩

/-- Counterexample to C3: requesting `[1, 2]` where token 1 is fresh and
token 2 stale, the stale set is `[2]`, yet the actions query — which the
source restricts to `genIds`, the full request — fetches token 1's sale
action; a query restricted to the stale ids would fetch nothing. -/
theorem actions_query_fetches_fresh_ids_cex :
    (partitionStats [1, 2] (findStatsRows [c3FreshRow] [1, 2]) 100).2.map
        (fun s => s.tokenId) = [2]
    ∧ actionsQuery [c3Action] [1, 2] = [c3Action]
    ∧ c3Action.tokenId = 1
    ∧ actionsQuery [c3Action] [2] = [] := by decide

/-- C3 amended: the action-record query of the recompute pass is
restricted to the FULL requested id list (`genIds`) with type in
{`OFFER_ACCEPTED`, `MINTED_FROM`} — fresh ids included — not to the stale
ids. -/
theorem actionsQuery_restricted_to_request_ids (acts : List ActionRec)
    (genIds : List Nat) (a : ActionRec) :
    a ∈ actionsQuery acts genIds
      ↔ a ∈ acts
        ∧ (a.type = .offerAccepted ∨ a.type = .mintedFrom)
        ∧ a.tokenId ∈ genIds := by
  simp [actionsQuery, List.mem_filter, and_assoc]

/-- A stale row for token 1 carrying earlier nonzero market values. -/
def c4StaleRow : MarketStatsRec :=
  ⟨1, some 5, some 2, 3, some 9, some 1, 10, 20, 2, 4, 1, 0, true⟩

/-- Counterexample to C4: recomputing token 1 with zero active offers and
zero sales returns `floor = 5`, `median = 2`, `totalListing = 3` — the
row's previous values — where the claim predicts `null`/`null`/`0`. -/
theorem recompute_zero_offers_keeps_old_floor_cex :
    ((batchGenTokMarketStats [1] [c4StaleRow] [] [] 0 0).getD 0 none).map
        (fun s => (s.floor, s.median, s.totalListing))
      = some (some 5, some 2, 3) := by decide

/-- C4 amended: for a recomputed token with zero sales the sale-derived
fields come out as claimed (`highestSold = lowestSold = null`, totals and
volumes 0); but with zero active offers the aggregate query has no row
for the token, so `floor`/`median`/`totalListing` keep the record's
previous values — which are `null`/`null`/`0` only for a newly
synthesized record. -/
theorem recompute_zero_offers_zero_sales (objkts : List ObjktOffer)
    (ids genIds : List Nat) (acts : List ActionRec) (lastDay : Int)
    (stat : MarketStatsRec) (n : Nat)
    (hoff : offerPrices objkts stat.tokenId = [])
    (hact : ∀ a ∈ acts, a.tokenId ≠ stat.tokenId) :
    recomputeStat (computeStatsQuery objkts ids) (actionsQuery acts genIds)
        lastDay stat
      = { stat with
          highestSold := none
          lowestSold := none
          primTotal := 0
          secVolumeTz := 0
          secVolumeNb := 0
          secVolumeTz24 := 0
          secVolumeNb24 := 0
          requiresUpdate := false }
    ∧ (newMarketStats n).floor = none
    ∧ (newMarketStats n).median = none
    ∧ (newMarketStats n).totalListing = 0 := by
  have hfindnone :
      (computeStatsQuery objkts ids).find? (fun s => s.id == stat.tokenId)
        = none := by
    rw [List.find?_eq_none]
    intro x hx
    rw [computeStatsQuery, List.mem_filterMap] at hx
    obtain ⟨id0, _, hsome⟩ := hx
    cases hop : offerPrices objkts id0 with
    | nil => rw [hop] at hsome; exact absurd hsome (by simp)
    | cons p rest =>
      rw [hop] at hsome
      have hxid : x.id = id0 := by
        cases hsome
        rfl
      intro hbeq
      have : id0 = stat.tokenId := by
        rw [← hxid]
        exact beq_iff_eq.mp hbeq
      rw [this] at hop
      rw [hop] at hoff
      exact absurd hoff (by simp)
  have hfilt :
      (actionsQuery acts genIds).filter (fun a => a.tokenId == stat.tokenId)
        = [] := by
    rw [List.filter_eq_nil_iff]
    intro a ha
    have : a ∈ acts := (List.mem_filter.mp ha).1
    simp [hact a this]
  refine ⟨?_, rfl, rfl, rfl⟩
  unfold recomputeStat
  simp only [hfindnone, hfilt]
  simp [lowestSentinel]

/-- Witness for the amended C4 at a concrete input: the stale row with no
offers and no actions keeps its `floor = 5` and zeroes the sale fields. -/
theorem recompute_zero_offers_zero_sales_witness :
    offerPrices [] c4StaleRow.tokenId = []
    ∧ (recomputeStat (computeStatsQuery [] [1]) (actionsQuery [] [1]) 0
          c4StaleRow
        = { c4StaleRow with
            highestSold := none
            lowestSold := none
            primTotal := 0
            secVolumeTz := 0
            secVolumeNb := 0
            secVolumeTz24 := 0
            secVolumeNb24 := 0
            requiresUpdate := false }
      ∧ (newMarketStats 7).floor = none
      ∧ (newMarketStats 7).median = none
      ∧ (newMarketStats 7).totalListing = 0) :=
  ⟨by decide,
    recompute_zero_offers_zero_sales [] [1] [1] [] 0 c4StaleRow 7
      (by decide) (by decide)⟩

/-- A composite key for token 1 requesting the `offer_ne: null` filter. -/
def c2KeyFiltered : ObjktKey := ⟨1, some ⟨true⟩, none, none, none, none⟩

/-- A composite key for token 2 with no filter at all. -/
def c2KeyPlain : ObjktKey := ⟨2, none, none, none, none, none⟩

/-- Token 1's objkt, carrying an offer. -/
def c2RowWithOffer : ObjktRow := ⟨10, 1, some ⟨5, 0⟩, none⟩

/-- Token 2's objkt, with no offer. -/
def c2RowNoOffer : ObjktRow := ⟨20, 2, none, none⟩

/-- Counterexample to C2: batching a filtered key with an unfiltered key,
the unfiltered key's position comes back empty — the first key's
`offer_ne: null` filter was applied to it — although the same key alone
(its own shape) returns its offer-less objkt. -/
theorem batch_objkt_ignores_second_key_shape_cex :
    c2KeyPlain.filters ≠ c2KeyFiltered.filters
    ∧ (batchGenTokObjkt [c2KeyFiltered, c2KeyPlain]
        [c2RowWithOffer, c2RowNoOffer]).getD 1 [] = []
    ∧ (batchGenTokObjkt [c2KeyPlain]
        [c2RowWithOffer, c2RowNoOffer]).getD 0 [] = [c2RowNoOffer] := by
  decide

/-- `runObjktQuery` reads only the shape fields of the key it is given,
never its id. -/
lemma runObjktQuery_shape_only (store : List ObjktRow) (ids : List Nat)
    (k0 k0' : ObjktKey)
    (hf : k0.filters = k0'.filters)
    (hff : k0.featureFilters = k0'.featureFilters)
    (hs : k0.sort = k0'.sort)
    (ht : k0.takeN = k0'.takeN)
    (hsk : k0.skipN = k0'.skipN) :
    runObjktQuery store ids k0 = runObjktQuery store ids k0' := by
  unfold runObjktQuery
  rw [hf, hff, hs, ht, hsk]

/-- C2 amended: the result of `batchGenTokObjkt` depends only on the key
ids and on the FIRST key's filter/sort/pagination shape; the shapes of
every other key in the batch are ignored, so all keys receive results
computed under the first key's parameters. -/
theorem batchGenTokObjkt_first_key_shape (k0 k0' : ObjktKey)
    (rest rest' : List ObjktKey) (store : List ObjktRow)
    (hids : (k0 :: rest).map (fun k => k.id) = (k0' :: rest').map (fun k => k.id))
    (hf : k0.filters = k0'.filters)
    (hff : k0.featureFilters = k0'.featureFilters)
    (hs : k0.sort = k0'.sort)
    (ht : k0.takeN = k0'.takeN)
    (hsk : k0.skipN = k0'.skipN) :
    batchGenTokObjkt (k0 :: rest) store
      = batchGenTokObjkt (k0' :: rest') store := by
  simp only [batchGenTokObjkt]
  rw [hids, runObjktQuery_shape_only store ((k0' :: rest').map (fun k => k.id))
    k0 k0' hf hff hs ht hsk]

/-- Witness for the amended C2: two batches sharing ids and first-key
shape but differing in the second key's shape produce identical
results. -/
theorem batchGenTokObjkt_first_key_shape_witness :
    ([c2KeyFiltered, ⟨2, some ⟨true⟩, none, none, none, none⟩].map
        (fun k => k.id)
      = [c2KeyFiltered, c2KeyPlain].map (fun k => k.id))
    ∧ batchGenTokObjkt [c2KeyFiltered, ⟨2, some ⟨true⟩, none, none, none, none⟩]
        [c2RowWithOffer, c2RowNoOffer]
      = batchGenTokObjkt [c2KeyFiltered, c2KeyPlain]
        [c2RowWithOffer, c2RowNoOffer] :=
  ⟨by decide,
    batchGenTokObjkt_first_key_shape c2KeyFiltered c2KeyFiltered
      [⟨2, some ⟨true⟩, none, none, none, none⟩] [c2KeyPlain]
      [c2RowWithOffer, c2RowNoOffer] (by decide) rfl rfl rfl rfl rfl⟩

end FxhashApi
